import Mathlib

/-!
Verification of the agentic-ai-minimal-agent repository: a shallow
embedding, in Lean 4, of the agent orchestration loop (src/main.py),
the tool-dispatch registry and calculator (src/tools.py), the long-term
vector memory subsystem (src/long_term_memory.py), and the short-term
conversation buffer (src/memory.py), together with theorems settling
the specification claims about them.

Numeric values (importances, embedding components, thresholds) are
modelled as exact rationals; Python byte and integer arithmetic is
modelled on `Nat`/`Int`; fallible operations return `Except`/`Option`.
-/

namespace Agent

/-! ## Python string primitives used by the source -/

/-- The ASCII whitespace characters recognised by Python `str.strip()`
(space, tab, newline, carriage return, vertical tab, form feed).
The source only ever strips ASCII task/content text, so the Unicode
extras of `str.strip` are not modelled. -/
def isPySpace (c : Char) : Bool :=
  c = ' ' || c = '\t' || c = '\n' || c = '\r' ||
  c = Char.ofNat 11 || c = Char.ofNat 12

/-- `not s.strip()` in Python: true iff the string is empty or consists
only of whitespace. -/
def pyStripIsEmpty (s : String) : Bool :=
  s.toList.all isPySpace

/-- Whether `pat` is a prefix of `l`, character by character. -/
def leadsWith : List Char → List Char → Bool
  | [], _ => true
  | _ :: _, [] => false
  | p :: ps, c :: cs => p = c && leadsWith ps cs

/-- Whether `pat` occurs as a contiguous sublist of `l`. -/
def subOccurs (pat : List Char) : List Char → Bool
  | [] => leadsWith pat []
  | c :: cs => leadsWith pat (c :: cs) || subOccurs pat cs

/-- Python `pat in s` (substring containment), used by the quota /
rate-limit test in src/main.py. -/
def pyContains (s pat : String) : Bool :=
  subOccurs pat.toList s.toList

/-- Python `str.lower()` on one character, for the ASCII texts the
source lowercases. -/
def charLowerPy (c : Char) : Char :=
  if 'A' ≤ c && c ≤ 'Z' then Char.ofNat (c.toNat + 32) else c

/-- Python `str.lower()`, for ASCII text. -/
def lowerPy (s : String) : String :=
  ⟨s.toList.map charLowerPy⟩

/-- Python `s[:n]` for a nonnegative `n`: the first `n` characters. -/
def pyTake (s : String) (n : Nat) : String :=
  ⟨s.toList.take n⟩

/-- An apostrophe character, kept out of string literals. -/
def apos : String := String.singleton (Char.ofNat 39)

/-! ## Fallback embedding (src/long_term_memory.py, `simple_embedding`)

The SHA-256 primitive itself comes from Python's `hashlib` standard
library (an external collaborator per the spec); it is modelled as a
function parameter `sha : String → List Nat` producing the digest's
byte list (each entry a byte value `< 256`; real SHA-256 yields 32
bytes). Everything downstream of the hash is translated from the
source. -/

/-- The four features `simple_embedding` derives from one hash byte `b`:
`(b % 256)/128 - 1`, `((b >> 1) % 256)/128 - 1`, `((b >> 2) % 256)/128 - 1`,
`((b >> 3) % 256)/128 - 1`, as exact rationals. -/
def byteFeatures (b : Nat) : List ℚ :=
  [ ((b % 256 : ℕ) : ℚ) / 128 - 1,
    ((b / 2 % 256 : ℕ) : ℚ) / 128 - 1,
    ((b / 4 % 256 : ℕ) : ℚ) / 128 - 1,
    ((b / 8 % 256 : ℕ) : ℚ) / 128 - 1 ]

/-- `simple_embedding(text, dim=384)` from src/long_term_memory.py:
take the first `min(len(hash_bytes), dim // 8)` bytes of the SHA-256
digest of the text, expand each byte into four features, pad with `0.0`
up to `dim`, and truncate to `dim`. -/
def simple_embedding (sha : String → List Nat) (text : String)
    (dim : Nat := 384) : List ℚ :=
  let hashBytes := sha text
  let emb := (hashBytes.take (min hashBytes.length (dim / 8))).map byteFeatures
  let emb := emb.flatten
  (emb ++ List.replicate (dim - emb.length) 0).take dim

/-! ## Cosine similarity comparisons (src/long_term_memory.py,
`consolidate_memories`)

The source computes `np.dot(a, b) / (np.linalg.norm(a) * np.linalg.norm(b))`
and compares it with `>` against the threshold. Over exact rationals the
square roots are avoided by comparing squares: for a nonnegative
threshold `t`, `dot/(‖a‖·‖b‖) > t` iff `dot > 0` and
`t² · (dot a a) · (dot b b) < dot²`. When either vector has zero norm
the float computation yields NaN, and every NaN comparison is false;
the zero-norm guard reproduces that. -/

/-- Dot product of two rational vectors (`np.dot` on equal-length
vectors; trailing elements of the longer vector are ignored, matching
the always-equal-length use in the source). -/
def dotQ : List ℚ → List ℚ → ℚ
  | x :: xs, y :: ys => x * y + dotQ xs ys
  | _, _ => 0

/-- Exact test for `cosine_similarity a b > t` as computed (over ℝ) by
`consolidate_memories`; false on a zero-norm vector (NaN semantics). -/
def cosSimGT (a b : List ℚ) (t : ℚ) : Bool :=
  let d := dotQ a b
  let A := dotQ a a
  let B := dotQ b b
  if A = 0 || B = 0 then false
  else if 0 ≤ t then decide (0 < d) && decide (t ^ 2 * (A * B) < d ^ 2)
  else decide (0 ≤ d) || decide (d ^ 2 < t ^ 2 * (A * B))

/-- Spec-side predicate, following the spec wording "similarity ≥
threshold" (section 8): exact test for `cosine_similarity a b ≥ t`,
false on a zero-norm vector. Used only to state the claim about
consolidation, never by the embedded code, whose comparison is the
strict `cosSimGT`. -/
def cosSimGE (a b : List ℚ) (t : ℚ) : Bool :=
  let d := dotQ a b
  let A := dotQ a a
  let B := dotQ b b
  if A = 0 || B = 0 then false
  else if 0 ≤ t then decide (0 ≤ d) && decide (t ^ 2 * (A * B) ≤ d ^ 2)
  else decide (0 ≤ d) || decide (d ^ 2 ≤ t ^ 2 * (A * B))

/-! ## Vector memory store (src/long_term_memory.py, class VectorMemory)

The ChromaDB collection is an external collaborator; it is modelled as
the in-memory list of stored records, in insertion order (the order
`collection.get()` reports). `_generate_embedding` prefers a
SentenceTransformer model and falls back to `simple_embedding`; both
appear here as an `embed : String → List ℚ` parameter, instantiated
with `simple_embedding sha` on the fallback path. `_generate_id` builds
an id from an MD5 prefix plus a random UUID suffix; MD5 and the random
suffix are external primitives, passed in as `genId : String → String`.
The call-time timestamp is passed in as `now : String` (its ISO-8601
rendering). -/

/-- A metadata value stored alongside a record (Python mixes strings
and booleans in the metadata dicts of src/main.py). -/
inductive MetaLit where
  | s (v : String)
  | b (v : Bool)
  deriving DecidableEq, Repr

/-- The metadata dict attached to a stored record. `store_memory`
always writes `memory_type`, `timestamp` and `importance`; records
written by other processes may lack them, hence the `Option`s (read
back through `.get` with defaults). The `isinstance` guards of the
source only matter for a non-numeric `importance`, which no writer in
the repository produces; `importance` is therefore an optional
rational. -/
structure Metadata where
  memory_type : Option String := none
  timestamp : Option String := none
  importance : Option ℚ := none
  extra : List (String × MetaLit) := []
  deriving DecidableEq, Repr

/-- One record of the ChromaDB collection: id, document text, stored
embedding, metadata — the four parallel arrays of `collection.add`. -/
structure StoredRec where
  id : String
  document : String
  embedding : List ℚ
  metadata : Metadata
  deriving DecidableEq, Repr

/-- The backing collection state, in insertion order. -/
abbrev VMState := List StoredRec

/-- `store_memory(content, memory_type, metadata, importance)` from
src/long_term_memory.py: empty or whitespace-only content returns the
empty id without touching the collection; otherwise a fresh id is
generated, the embedding computed, and one record appended. Returns
the id together with the new collection state. (The `except` branch
around `collection.add` converts backend failures to an empty id; the
in-memory model of the collection cannot fail.) -/
def store_memory (embed : String → List ℚ) (genId : String → String)
    (now : String) (st : VMState) (content : String)
    (memory_type : String := "experience")
    (metadata : Option (List (String × MetaLit)) := none)
    (importance : ℚ := 1/2) : String × VMState :=
  if pyStripIsEmpty content then ("", st)
  else
    let memory_id := genId content
    let embedding := embed content
    let rec_ : StoredRec :=
      { id := memory_id
        document := content
        embedding := embedding
        metadata :=
          { memory_type := some memory_type
            timestamp := some now
            importance := some importance
            extra := metadata.getD [] } }
    (memory_id, st ++ [rec_])

/-- The `where` filter `search_memories` hands to `collection.query`:
an equality constraint on `memory_type` and/or a `$gte` constraint on
`importance` (only when `min_importance > 0`). -/
structure WhereFilter where
  memory_type_eq : Option String := none
  importance_gte : Option ℚ := none
  deriving DecidableEq, Repr

/-- What `collection.query` is asked: one query embedding, a result
count, and the optional filter (`none` when no filter was built). -/
structure QueryReq where
  query_embedding : List ℚ
  n_results : Nat
  whereFilter : Option WhereFilter
  deriving Repr

/-- What `collection.query` returns for the single query embedding:
parallel lists of ids, documents, optional metadata and optional
distances (the source guards each of `metadatas`/`distances` being
absent, substituting `{}` and `1.0`). -/
structure QueryResp where
  ids : List String
  documents : List String
  metadatas : List (Option Metadata)
  distances : List (Option ℚ)
  deriving Repr

/-- One formatted search hit, as assembled by `search_memories`. -/
structure MemoryHit where
  id : String
  content : String
  memory_type : String
  timestamp : String
  importance : ℚ
  similarity : ℚ
  metadata : Metadata
  deriving DecidableEq, Repr

/-- `search_memories(query, n_results, memory_type, min_importance)`
from src/long_term_memory.py: an empty or whitespace-only query
returns `[]` before the query embedding is computed or the collection
queried (`backendQuery` and `embed` are both unused on that path).
Otherwise the filter is built, the collection queried with the query
embedding, and each returned row formatted with the defaults
`memory_type="unknown"`, `timestamp=""`, `importance=0.5` and
`similarity = max 0 (1 - distance)`. -/
def search_memories (backendQuery : QueryReq → QueryResp)
    (embed : String → List ℚ) (query : String) (n_results : Nat := 5)
    (memory_type : Option String := none) (min_importance : ℚ := 0) :
    List MemoryHit :=
  if pyStripIsEmpty query then []
  else
    let whereFilter : WhereFilter :=
      { memory_type_eq := memory_type
        importance_gte := if 0 < min_importance then some min_importance else none }
    let isEmptyFilter := whereFilter.memory_type_eq = none ∧
      whereFilter.importance_gte = none
    let query_embedding := embed query
    let results := backendQuery
      { query_embedding := query_embedding
        n_results := n_results
        whereFilter := if isEmptyFilter then none else some whereFilter }
    (List.range results.documents.length).filterMap fun i =>
      match results.documents.get? i with
      | none => none
      | some doc =>
        let metadata := ((results.metadatas.get? i).join).getD {}
        let distance := ((results.distances.get? i).join).getD 1
        some
          { id := (results.ids.get? i).getD ""
            content := doc
            memory_type := metadata.memory_type.getD "unknown"
            timestamp := metadata.timestamp.getD ""
            importance := metadata.importance.getD (1/2)
            similarity := max 0 (1 - distance)
            metadata := metadata }

/-- Insert into the `to_delete` set: Python `set.add`, modelled on a
duplicate-free list that remembers insertion order. -/
def addId (td : List String) (x : String) : List String :=
  if x ∈ td then td else td ++ [x]

/-- The importance `consolidate_memories` reads from a record's
metadata: `metadata.get('importance', 0.5)` with non-numeric values
coerced to `0.5`. -/
def impOf (m : Metadata) : ℚ := m.importance.getD (1/2)

/-- The inner `for j in enumerate(embeddings[i+1:], i+1)` loop of
`consolidate_memories`, recursing over the remaining `j`s: records
already marked are skipped; a pair whose cosine similarity strictly
exceeds the threshold marks the lower-importance member, keeping
record `i` on ties (`imp1 >= imp2` keeps `i`, deletes `j`). Note the
source keeps comparing against record `i` even after `i` itself was
marked inside this very loop. -/
def consolidateInner (ids : List String) (embs : List (List ℚ))
    (metas : List Metadata) (t : ℚ) (i : Nat) :
    List Nat → List String → List String
  | [], td => td
  | j :: js, td =>
    consolidateInner ids embs metas t i js
      (if (ids.get? j).getD "" ∈ td then td
       else if cosSimGT ((embs.get? i).getD []) ((embs.get? j).getD []) t then
         if impOf ((metas.get? i).getD {}) ≥ impOf ((metas.get? j).getD {}) then
           addId td ((ids.get? j).getD "")
         else
           addId td ((ids.get? i).getD "")
       else td)

/-- The outer `for i, emb1 in enumerate(embeddings)` loop of
`consolidate_memories`, recursing over the remaining `i`s: an `i`
already marked is skipped entirely, otherwise the inner loop runs
over `j ∈ [i+1, n)`. -/
def consolidateMarkAux (ids : List String) (embs : List (List ℚ))
    (metas : List Metadata) (t : ℚ) :
    List Nat → List String → List String
  | [], td => td
  | i :: ks, td =>
    consolidateMarkAux ids embs metas t ks
      (if (ids.get? i).getD "" ∈ td then td
       else consolidateInner ids embs metas t i
         (List.range' (i + 1) (ids.length - (i + 1))) td)

/-- The full pairwise marking pass of `consolidate_memories`: for each
`i`, skip it if already marked, then run the inner loop over
`j ∈ [i+1, n)`. Returns the `to_delete` set in insertion order. -/
def consolidateMark (ids : List String) (embs : List (List ℚ))
    (metas : List Metadata) (t : ℚ) : List String :=
  consolidateMarkAux ids embs metas t (List.range ids.length) []

/-- `consolidate_memories(similarity_threshold=0.95)` from
src/long_term_memory.py: fetch the whole collection; with fewer than
two records return 0; otherwise re-embed every document, mark
near-duplicates pairwise, delete the marked ids, and return how many
were marked. Returns the count together with the new collection
state. -/
def consolidate_memories (embed : String → List ℚ) (st : VMState)
    (similarity_threshold : ℚ := 19/20) : Nat × VMState :=
  if st.length < 2 then (0, st)
  else
    let documents := st.map StoredRec.document
    let ids := st.map StoredRec.id
    let metas := st.map StoredRec.metadata
    let embeddings := documents.map embed
    let to_delete := consolidateMark ids embeddings metas similarity_threshold
    (to_delete.length, st.filter (fun r => r.id ∉ to_delete))

/-! ## Calculator (src/tools.py, `_calc_run`)

`_calc_run` evaluates the expression string with Python `eval` under
globals `{k: getattr(math, k) for k in dir(math) if not k.startswith("_")}`
updated with `{"__builtins__": {}}` and empty locals. Python's parser
is not modelled: the evaluator works on the parsed expression tree
(`PyExpr`), and each concrete claim names the tree Python's grammar
assigns to the concrete source string. Name resolution is translated
exactly: locals are empty, the globals hold precisely the public
`math` attributes, and the emptied `__builtins__` makes every other
identifier (including `abs` and `round`) raise `NameError`. The
numeric semantics of applying a `math` function (float transcendental
behaviour) is outside the claims and is a parameter `applyMath`. -/

/-- The public attributes of CPython's `math` module (`dir(math)`
without the underscore names), as of CPython 3.11. -/
def mathNames : List String :=
  ["acos", "acosh", "asin", "asinh", "atan", "atan2", "atanh", "cbrt",
   "ceil", "comb", "copysign", "cos", "cosh", "degrees", "dist", "e",
   "erf", "erfc", "exp", "exp2", "expm1", "fabs", "factorial", "floor",
   "fmod", "frexp", "fsum", "gamma", "gcd", "hypot", "inf", "isclose",
   "isfinite", "isinf", "isnan", "isqrt", "lcm", "ldexp", "lgamma",
   "log", "log10", "log1p", "log2", "modf", "nan", "nextafter", "perm",
   "pi", "pow", "prod", "radians", "remainder", "sin", "sinh", "sqrt",
   "tan", "tanh", "tau", "trunc", "ulp"]

mutual

/-- A parsed Python expression, covering the fragment the calculator
tool can meet: numeric literals, string literals, identifiers, unary
minus, the arithmetic operators, and calls. -/
inductive PyExpr where
  | num (q : ℚ)
  | strLit (s : String)
  | name (n : String)
  | neg (e : PyExpr)
  | add (a b : PyExpr)
  | sub (a b : PyExpr)
  | mul (a b : PyExpr)
  | div (a b : PyExpr)
  | pow (a b : PyExpr)
  | call (f : PyExpr) (args : PyArgs)

/-- The (positional) argument list of a call expression. -/
inductive PyArgs where
  | nil
  | cons (head : PyExpr) (tail : PyArgs)

end

/-- A value the calculator evaluator can produce: a number (Python
ints and floats as exact rationals), a string, or one of the `math`
module's attributes, kept symbolic by name. -/
inductive Value where
  | num (q : ℚ)
  | str (s : String)
  | mathObj (n : String)
  deriving DecidableEq, Repr

/-- Name resolution inside `eval(expression, allowed, {})`: locals are
empty, the globals are exactly the public `math` attributes, and the
replaced `__builtins__` is empty, so every other name raises
`NameError`. -/
def lookupName (n : String) : Except String Value :=
  if n ∈ mathNames then Except.ok (Value.mathObj n)
  else Except.error ("NameError: name " ++ n ++ " is not defined")

/-- Apply a binary arithmetic operator to two values: numbers combine
numerically, division by zero raises, and any operand that is not a
number raises a `TypeError` (Python rejects `math`-object and most
string operands of the arithmetic operators). -/
def applyBinOp (op : String) (a b : Value) : Except String Value :=
  match a, b with
  | Value.num x, Value.num y =>
    if op = "+" then Except.ok (Value.num (x + y))
    else if op = "-" then Except.ok (Value.num (x - y))
    else if op = "*" then Except.ok (Value.num (x * y))
    else if op = "/" then
      if y = 0 then Except.error "ZeroDivisionError: division by zero"
      else Except.ok (Value.num (x / y))
    else if op = "**" then Except.error "power outside modelled fragment"
    else Except.error ("unsupported operator " ++ op)
  | _, _ => Except.error ("TypeError: unsupported operand type(s) for " ++ op)

mutual

/-- Evaluate a parsed expression under the calculator's sandbox.
`applyMath` gives the result of calling a `math`-module function on
fully evaluated arguments (its float semantics is external to the
claims); calling a non-callable value raises `TypeError`. Evaluation
is eager and left-to-right, as in CPython. -/
def evalExpr (applyMath : String → List Value → Except String Value) :
    PyExpr → Except String Value
  | PyExpr.num q => Except.ok (Value.num q)
  | PyExpr.strLit s => Except.ok (Value.str s)
  | PyExpr.name n => lookupName n
  | PyExpr.neg e => do
    let v ← evalExpr applyMath e
    match v with
    | Value.num q => Except.ok (Value.num (-q))
    | _ => Except.error "TypeError: bad operand type for unary -"
  | PyExpr.add a b => do applyBinOp "+" (← evalExpr applyMath a) (← evalExpr applyMath b)
  | PyExpr.sub a b => do applyBinOp "-" (← evalExpr applyMath a) (← evalExpr applyMath b)
  | PyExpr.mul a b => do applyBinOp "*" (← evalExpr applyMath a) (← evalExpr applyMath b)
  | PyExpr.div a b => do applyBinOp "/" (← evalExpr applyMath a) (← evalExpr applyMath b)
  | PyExpr.pow a b => do applyBinOp "**" (← evalExpr applyMath a) (← evalExpr applyMath b)
  | PyExpr.call f args => do
    let fv ← evalExpr applyMath f
    let argv ← evalArgs applyMath args
    match fv with
    | Value.mathObj n => applyMath n argv
    | _ => Except.error "TypeError: object is not callable"

/-- Evaluate a call's argument list left to right. -/
def evalArgs (applyMath : String → List Value → Except String Value) :
    PyArgs → Except String (List Value)
  | PyArgs.nil => Except.ok []
  | PyArgs.cons e es => do
    let v ← evalExpr applyMath e
    let vs ← evalArgs applyMath es
    Except.ok (v :: vs)

end

/-! ## JSON plumbing shared by the tools (src/tools.py)

`json.dumps` / `json.loads` belong to Python's standard library; the
small fragments the claims depend on are rendered exactly
(`json.dumps` of a flat dict with its default `", "` / `": "`
separators), and full `json.loads` is a parameter where it is only a
source of possible failure. -/

/-- A parsed JSON value (what `json.loads` can produce). -/
inductive JsonVal where
  | obj (fields : List (String × JsonVal))
  | arr (elems : List JsonVal)
  | str (s : String)
  | num (q : ℚ)
  | bool (b : Bool)
  | null
  deriving Repr

/-- The string-escaping half of `json.dumps` for the strings the
claims meet (quote and backslash; control characters do not occur). -/
def jsonEscape (s : String) : String :=
  s.toList.foldl (fun acc c =>
    acc ++ (if c = '"' then "\\\"" else if c = '\\' then "\\\\"
            else String.singleton c)) ""

/-- `json.dumps` rendering of a number: integers without a decimal
point (the only numbers the claims serialize are integers). -/
def jsonNum (q : ℚ) : String :=
  if q.den = 1 then toString q.num else toString q

/-- `json.dumps({"error": msg})`, the uniform error result of
`call_tool` and the tool handlers. -/
def errJson (msg : String) : String :=
  "\x7b\"error\": \"" ++ jsonEscape msg ++ "\"\x7d"

/-! ## Calculator result wrapper (src/tools.py, `_calc_run`) -/

/-- `json.dumps({"ok": False, "error": str(e)})`. -/
def errCalcJson (msg : String) : String :=
  "\x7b\"ok\": false, \"error\": \"" ++ jsonEscape msg ++ "\"\x7d"

/-- `_calc_run(expression)`: evaluate the expression in the sandbox
and wrap the outcome as the tool's JSON result. `parsed` is the
expression tree Python's grammar assigns to `expression`. A successful
evaluation producing a non-serializable value (a `math` function
object) makes `json.dumps` raise inside the same `try`, so it too
lands in the `{"ok": false}` branch. -/
def «_calc_run» (applyMath : String → List Value → Except String Value)
    (expression : String) (parsed : PyExpr) : String :=
  match evalExpr applyMath parsed with
  | Except.ok (Value.num q) =>
    "\x7b\"ok\": true, \"expression\": \"" ++ jsonEscape expression ++
      "\", \"result\": " ++ jsonNum q ++ "\x7d"
  | Except.ok (Value.str s) =>
    "\x7b\"ok\": true, \"expression\": \"" ++ jsonEscape expression ++
      "\", \"result\": \"" ++ jsonEscape s ++ "\"\x7d"
  | Except.ok (Value.mathObj n) =>
    errCalcJson ("TypeError: Object of type " ++ n ++ " is not JSON serializable")
  | Except.error e => errCalcJson e

/-! ## Tool registry and dispatch (src/tools.py) -/

/-- One registered tool: name, description, JSON-schema, and the
handler. The handler receives the keyword-expanded argument mapping
and either returns its JSON string result or raises; `Except.error`
covers both a signature mismatch of `tool.run(**args)` (a `TypeError`)
and an exception inside the handler, which the single `except` clause
of `call_tool` treats alike. -/
structure Tool where
  name : String
  description : String
  schema : JsonVal
  run : List (String × JsonVal) → Except String String

/-- The registry `_TOOL_REGISTRY`, a name-keyed mapping. Re-registration
overwrites, so lookups take the first match of the (deduplicated)
entry list. -/
def lookupTool (registry : List Tool) (name : String) : Option Tool :=
  registry.find? (fun t => t.name = name)

/-- The `arguments_json` value `call_tool` receives: a JSON string, an
already-parsed mapping, or `None`. -/
inductive ArgsJson where
  | str (s : String)
  | mapping (m : List (String × JsonVal))
  | null

/-- The argument-normalisation phase of `call_tool`: a string is parsed
with `json.loads` (an empty string falling back to `"{}"`), `None`
becomes the empty mapping, a mapping passes through; a parse failure
or a parsed non-mapping value (which would make `tool.run(**args)`
raise a `TypeError`) is an error. -/
def parseToolArgs (jsonLoads : String → Except String JsonVal)
    (arguments_json : ArgsJson) : Except String (List (String × JsonVal)) :=
  match arguments_json with
  | ArgsJson.str s =>
    match jsonLoads (if s = "" then "\x7b\x7d" else s) with
    | Except.error e => Except.error e
    | Except.ok (JsonVal.obj kvs) => Except.ok kvs
    | Except.ok _ => Except.error "TypeError: argument after ** must be a mapping"
  | ArgsJson.null => Except.ok []
  | ArgsJson.mapping m => Except.ok m

/-- `call_tool(name, arguments_json)` from src/tools.py: unknown names
yield `{"error": "Unknown tool: ..."}`; otherwise the arguments are
normalised and the handler run inside a `try` whose `except` converts
any failure to `{"error": str(e)}`. Always returns a string — the
embedding is a total function, mirroring that `call_tool` never lets
an exception escape. -/
def call_tool (jsonLoads : String → Except String JsonVal)
    (registry : List Tool) (name : String) (arguments_json : ArgsJson) :
    String :=
  match lookupTool registry name with
  | none => errJson ("Unknown tool: " ++ name)
  | some tool =>
    match parseToolArgs jsonLoads arguments_json with
    | Except.error e => errJson e
    | Except.ok args =>
      match tool.run args with
      | Except.ok r => r
      | Except.error e => errJson e

/-! ## Short-term conversation memory (src/memory.py, class Memory) -/

/-- One entry of the short-term buffer: call-time timestamp, role,
content, and the optional metadata (`metadata or {}`). -/
structure MemEntry where
  timestamp : String
  role : String
  content : String
  metadata : List (String × MetaLit) := []
  deriving DecidableEq, Repr

/-- The short-term buffer: a capacity and the ordered entry list. -/
structure Memory where
  limit : Nat := 100
  entries : List MemEntry := []
  deriving DecidableEq, Repr

/-- Python `lst[-k:]`: the last `k` elements for `k > 0`, but the whole
list for `k = 0` (`lst[-0:]` is `lst[0:]`). -/
def pySliceLast (l : List α) (k : Nat) : List α :=
  if k = 0 then l else l.drop (l.length - k)

/-- `Memory.add_entry(role, content, metadata)` from src/memory.py:
append the new entry, then, when the length exceeds the limit, keep
`entries[-limit:]`. -/
def Memory.add_entry (m : Memory) (role content : String) (now : String)
    (metadata : Option (List (String × MetaLit)) := none) : Memory :=
  let entry : MemEntry :=
    { timestamp := now, role := role, content := content
      metadata := metadata.getD [] }
  let entries := m.entries ++ [entry]
  { limit := m.limit
    entries := if entries.length > m.limit then pySliceLast entries m.limit
               else entries }

/-! ## Agent orchestration loop (src/main.py, `run_agent`)

The OpenAI client is the external model-call interface; one call per
step is modelled by an oracle `Nat → ModelOutcome` giving, for each
step number, either the parsed response message, a response whose
shape makes the `resp['choices'][0]['message']` indexing raise
`KeyError` (`malformed`), or a generic exception from the API call
(`failure`, whose text the quota / rate-limit test inspects).

Modelled from the spec: `run_agent` drives its conversation buffer
through `memory.add(role, content)`, `memory.messages.append(...)` and
`memory.as_list()` — a buffer variant that is not among the source
files (src/memory.py exposes `add_entry`/`entries` instead, and no
`add`). Following spec sections 2 and 4.1, the buffer is modelled as
the ordered, append-only message list itself; `add` appends a
role/content message and `as_list` is the identity. Tool dispatch is
`call_tool` of src/tools.py, passed in as a function so the loop can
also be studied against an arbitrary dispatcher. -/

/-- One chat message of the conversation buffer, as main.py builds
them: a role, optional content, and — for the v0.28.x function-calling
format — an optional function name (`"function"`-role results) and an
optional function-call descriptor (name and raw arguments string). -/
structure Msg where
  role : String
  content : Option String := none
  name : Option String := none
  function_call : Option (String × String) := none
  deriving DecidableEq, Repr

/-- A role/content message, what the spec-modelled `memory.add`
appends. -/
def mkMsg (role content : String) : Msg :=
  { role := role, content := some content }

/-- The outcome of one `openai.ChatCompletion.create` call, after the
`resp['choices'][0]['message']` extraction. -/
inductive ModelOutcome where
  | reply (function_call : Option (String × String)) (content : Option String)
  | malformed (e : String)
  | failure (e : String)

/-- The quota / rate-limit test of src/main.py:
`"quota" in str(e).lower() or "rate limit" in str(e).lower()`. -/
def isQuotaError (e : String) : Bool :=
  pyContains (lowerPy e) "quota" || pyContains (lowerPy e) "rate limit"

/-- `MAX_STEPS` from src/main.py. -/
def MAX_STEPS : Nat := 6

/-- `SYSTEM_PROMPT` from src/main.py. -/
def SYSTEM_PROMPT : String :=
  "You are an autonomous but careful AI agent with access to long-term memory. " ++
  "Plan tasks, call tools when helpful, and finish with a concise, well-structured answer. " ++
  "You can use search_memory() to find relevant past experiences and store_memory() to save important information. " ++
  "Prefer retrieve() for local docs and search_memory() for past experiences before making assumptions. " ++
  "Use calculator() for any arithmetic. " ++
  "STOP when the task is complete."

/-- The fixed fallback sentence `run_agent` returns when no final
answer was produced. -/
def fallbackAnswer : String :=
  "I wasn" ++ apos ++ "t able to complete that request. " ++
  "Please try rephrasing or check the system status."

/-- One `store_memory` invocation issued by `run_agent` (content,
memory type, importance, metadata). -/
structure StoreCall where
  content : String
  memory_type : String
  importance : ℚ
  metadata : List (String × MetaLit)
  deriving DecidableEq, Repr

/-- Result of the reasoning loop proper: the final answer if one was
produced, the buffer contents, and how many model calls were made. -/
structure LoopResult where
  finalAnswer : Option String
  messages : List Msg
  stepsUsed : Nat
  deriving DecidableEq, Repr

/-- The `for step in range(1, MAX_STEPS + 1)` loop of `run_agent`,
with `fuel` remaining iterations and `step` the current step number.
A function-call response appends the assistant descriptor, dispatches
the tool, appends the correlated result message and continues; truthy
content is the final answer and breaks; an empty reply continues and
still consumes the step; a `KeyError` (malformed response) breaks; a
generic exception breaks when its text mentions quota or rate limits
and otherwise continues. Every entered iteration counts one model
call. -/
def agentSteps (oracle : Nat → ModelOutcome)
    (callToolFn : String → String → String) :
    Nat → Nat → List Msg → Nat → LoopResult
  | 0, _, msgs, used => ⟨none, msgs, used⟩
  | fuel + 1, step, msgs, used =>
    match oracle step with
    | ModelOutcome.reply (some (fname, fargs)) _ =>
      let msgs := msgs ++ [{ role := "assistant", function_call := some (fname, fargs) }]
      let result := callToolFn fname fargs
      let msgs := msgs ++ [{ role := "function", name := some fname, content := some result }]
      agentSteps oracle callToolFn fuel (step + 1) msgs (used + 1)
    | ModelOutcome.reply none content =>
      match content with
      | some c =>
        if c = "" then agentSteps oracle callToolFn fuel (step + 1) msgs (used + 1)
        else ⟨some c, msgs ++ [mkMsg "assistant" c], used + 1⟩
      | none => agentSteps oracle callToolFn fuel (step + 1) msgs (used + 1)
    | ModelOutcome.malformed _ => ⟨none, msgs, used + 1⟩
    | ModelOutcome.failure e =>
      if isQuotaError e then ⟨none, msgs, used + 1⟩
      else agentSteps oracle callToolFn fuel (step + 1) msgs (used + 1)

/-- The context block injected when relevant memories were found:
`"Relevant past experiences:\n"` then, for each of the top 2, a line
with the content truncated to 200 characters. -/
def contextStr (relevantMemories : List String) : String :=
  "Relevant past experiences:\n" ++
    String.join ((relevantMemories.take 2).map
      (fun m => "- " ++ pyTake m 200 ++ "...\n"))

/-- The success experience stored on exit with a final answer. -/
def successStore (task answer : String) : StoreCall :=
  { content := "Task: " ++ task ++ "\nResult: " ++ pyTake answer 500 ++ "..."
    memory_type := "experience"
    importance := 7/10
    metadata := [("task_type", MetaLit.s "user_request"),
                 ("success", MetaLit.b true)] }

/-- The incomplete-attempt experience stored on step-limit exhaustion. -/
def incompleteStore (task : String) : StoreCall :=
  { content := "Incomplete task: " ++ task ++
      "\nReached step limit after " ++ toString MAX_STEPS ++ " steps"
    memory_type := "experience"
    importance := 3/10
    metadata := [("task_type", MetaLit.s "user_request"),
                 ("success", MetaLit.b false),
                 ("reason", MetaLit.s "step_limit")] }

/-- What one `run_agent` run produced: the returned text, the number
of model calls, the final buffer, and the `store_memory` invocations
issued on exit (in order). -/
structure RunResult where
  answer : String
  stepsUsed : Nat
  messages : List Msg
  storeCalls : List StoreCall
  deriving DecidableEq, Repr

/-- `run_agent(task)` from src/main.py. A missing API key raises
`RuntimeError` before any step (`Except.error`). Otherwise the buffer
is seeded with the system prompt, the injected context when the
memory search returned anything, and the task; the loop runs; and on
exit the experience record is stored — `importance=0.7` with a final
answer, `importance=0.3` after step-limit exhaustion — when the
vector store is available. Returns the final answer, or the fallback
sentence when none (or a falsy one) was produced.
`relevantMemories` holds the contents `search_memories(task, 3,
min_importance=0.6)` returned against the backing store. -/
def run_agent (oracle : Nat → ModelOutcome)
    (callToolFn : String → String → String) (apiKeyPresent : Bool)
    (vectorAvailable : Bool) (relevantMemories : List String)
    (task : String) : Except String RunResult :=
  if !apiKeyPresent then
    Except.error "Set OPENAI_API_KEY in your environment"
  else
    let relevantMemories := if vectorAvailable then relevantMemories else []
    let msgs := [mkMsg "system" SYSTEM_PROMPT]
    let msgs := if vectorAvailable && !relevantMemories.isEmpty then
        msgs ++ [mkMsg "system" (contextStr relevantMemories)]
      else msgs
    let msgs := msgs ++ [mkMsg "user" task]
    let r := agentSteps oracle callToolFn MAX_STEPS 1 msgs 0
    let isTruthyAnswer := match r.finalAnswer with
      | some c => c ≠ ""
      | none => false
    let storeCalls :=
      (if vectorAvailable && isTruthyAnswer then
        [successStore task (r.finalAnswer.getD "")] else []) ++
      (if r.finalAnswer = none && vectorAvailable then
        [incompleteStore task] else [])
    let answer := match r.finalAnswer with
      | some c => if c = "" then fallbackAnswer else c
      | none => fallbackAnswer
    Except.ok
      { answer := answer
        stepsUsed := r.stepsUsed
        messages := r.messages
        storeCalls := storeCalls }

/-! ## Helper definitions for the claim statements -/

mutual

/-- The identifiers an expression references (spec wording: the
identifiers the expression "references"), in source order. -/
def exprNames : PyExpr → List String
  | PyExpr.num _ => []
  | PyExpr.strLit _ => []
  | PyExpr.name n => [n]
  | PyExpr.neg e => exprNames e
  | PyExpr.add a b => exprNames a ++ exprNames b
  | PyExpr.sub a b => exprNames a ++ exprNames b
  | PyExpr.mul a b => exprNames a ++ exprNames b
  | PyExpr.div a b => exprNames a ++ exprNames b
  | PyExpr.pow a b => exprNames a ++ exprNames b
  | PyExpr.call f args => exprNames f ++ exprNamesList args

/-- The identifiers referenced anywhere in an argument list. -/
def exprNamesList : PyArgs → List String
  | PyArgs.nil => []
  | PyArgs.cons e es => exprNames e ++ exprNamesList es

end

/-- A stand-in for the float semantics of applying a `math` function;
the sandboxing claims never reach an application, so any
instantiation serves. -/
def noMathApp : String → List Value → Except String Value :=
  fun n _ => Except.error ("math application " ++ n ++ " outside the claims")

/-- A concrete 32-byte digest function standing in for SHA-256 in
concrete evaluations: every text hashes to 32 zero bytes. -/
def shaZero : String → List Nat := fun _ => List.replicate 32 0

/-- The suffix of length at most `k` of a list — "the most recent `k`
in their original insertion order", the spec-side description of what
the short-term buffer retains. -/
def lastN (l : List α) (k : Nat) : List α := l.drop (l.length - k)

/-- One `add_entry` call: role, content, timestamp, metadata. -/
abbrev AddCall := String × String × String × Option (List (String × MetaLit))

/-- Replay a sequence of `add_entry` calls on a buffer. -/
def applyCalls (m : Memory) (cs : List AddCall) : Memory :=
  cs.foldl (fun m c => m.add_entry c.1 c.2.1 c.2.2.1 c.2.2.2) m

/-- The entry one `add_entry` call creates. -/
def callEntry (c : AddCall) : MemEntry :=
  { timestamp := c.2.2.1, role := c.1, content := c.2.1
    metadata := c.2.2.2.getD [] }

/-- First record of the consolidation scenarios: content `"c"`, stored
with importance `0.9`. -/
def r1C : StoredRec :=
  { id := "mem_a_1"
    document := "c"
    embedding := simple_embedding shaZero "c"
    metadata := { memory_type := some "experience"
                  timestamp := some "2024-01-01T00:00:00"
                  importance := some (9/10) } }

/-- Second record of the consolidation scenarios: the same content
`"c"`, stored with importance `0.3` (distinct id — ids carry a random
suffix, so duplicate content still yields distinct records). -/
def r2C : StoredRec :=
  { id := "mem_a_2"
    document := "c"
    embedding := simple_embedding shaZero "c"
    metadata := { memory_type := some "experience"
                  timestamp := some "2024-01-01T00:00:01"
                  importance := some (3/10) } }

/-- A model response that never carries final textual content: either
it requests a tool call (content is then ignored by the loop), or it
has no truthy content at all. -/
def nonFinalReply (o : ModelOutcome) : Prop :=
  ∃ fc content, o = ModelOutcome.reply fc content ∧
    (fc.isSome = true ∨ content = none ∨ content = some "")

/-- A marked `to_delete` entry is justified when it is the
lower-importance member of some strictly-similar pair `(i, j)` with
`i < j` (the first-encountered member being kept on equal
importances): deleted as `j` when record `i` has greater or equal
importance, deleted as `i` when record `j` has strictly greater
importance. -/
def markJustified (ids : List String) (embs : List (List ℚ))
    (metas : List Metadata) (t : ℚ) (x : String) : Prop :=
  ∃ i j, i < j ∧ j < ids.length ∧
    cosSimGT ((embs.get? i).getD []) ((embs.get? j).getD []) t = true ∧
    ((impOf ((metas.get? i).getD {}) ≥ impOf ((metas.get? j).getD {}) ∧
        x = (ids.get? j).getD "") ∨
     (impOf ((metas.get? i).getD {}) < impOf ((metas.get? j).getD {}) ∧
        x = (ids.get? i).getD ""))

/-! ## Claim theorems -/


/-- C9: the fallback embedding is deterministic: `simple_embedding` is a
pure function of the text (through its fixed SHA-256 digest), so two
calls on the same text yield the identical vector, and any texts with
the same digest embed identically. -/
theorem c9_simple_embedding_deterministic :
    ∀ (sha : String → List Nat) (t : String) (dim : Nat),
      simple_embedding sha t dim = simple_embedding sha t dim ∧
      (∀ (sha2 : String → List Nat) (t2 : String), sha t = sha2 t2 →
        simple_embedding sha t dim = simple_embedding sha2 t2 dim) := by
  intro sha t dim
  refine ⟨rfl, fun sha2 t2 h => ?_⟩
  simp only [simple_embedding, h]

theorem c9_witness :
    simple_embedding shaZero "a" 384 =
      simple_embedding (fun _ => List.replicate 32 0) "b" 384 :=
  (c9_simple_embedding_deterministic shaZero "a" 384).2 _ "b" rfl

/-- C7: for every content string that is empty or whitespace-only,
`store_memory` returns the empty identifier and leaves the collection
state unchanged, so the total record count is unchanged by the call. -/
theorem c7_store_memory_blank_is_noop :
    ∀ (embed : String → List ℚ) (genId : String → String) (now : String)
      (st : VMState) (content memory_type : String)
      (metadata : Option (List (String × MetaLit))) (importance : ℚ),
      pyStripIsEmpty content = true →
      store_memory embed genId now st content memory_type metadata importance
        = ("", st) := by
  intro embed genId now st content memory_type metadata importance h
  simp [store_memory, h]

theorem c7_witness :
    store_memory (fun _ => []) (fun c => c) "now" [] "   " "experience" none (1/2)
        = ("", []) ∧
      store_memory (fun _ => []) (fun c => c) "now" [] "" "experience" none (1/2)
        = ("", []) :=
  ⟨c7_store_memory_blank_is_noop _ _ _ _ _ _ _ _ (by decide),
   c7_store_memory_blank_is_noop _ _ _ _ _ _ _ _ (by decide)⟩

/-- C8: for every query string that is empty or whitespace-only,
`search_memories` returns the empty list — for every backing index and
every embedding function alike, so no embedding computation or
collection query can influence (or be required for) the result. -/
theorem c8_search_blank_query_returns_empty :
    ∀ (backendQuery : QueryReq → QueryResp) (embed : String → List ℚ)
      (query : String) (n_results : Nat) (memory_type : Option String)
      (min_importance : ℚ),
      pyStripIsEmpty query = true →
      search_memories backendQuery embed query n_results memory_type
        min_importance = [] := by
  intro backendQuery embed query n_results memory_type min_importance h
  simp [search_memories, h]

theorem c8_witness :
    search_memories (fun _ => ⟨[], [], [], []⟩) (fun _ => []) "" 5 none 0 = [] :=
  c8_search_blank_query_returns_empty _ _ _ _ _ _ (by decide)

/-- C2: `call_tool` never raises (it is a total function into result
strings) and every failure is a well-formed JSON error result: an
unregistered name yields the error naming the unknown tool, an
argument-parsing failure yields an error carrying its description, a
handler failure yields an error carrying its description, and a
successful handler result is returned as is. -/
theorem c2_call_tool_never_raises :
    ∀ (jsonLoads : String → Except String JsonVal) (registry : List Tool)
      (name : String) (args : ArgsJson),
      (lookupTool registry name = none →
        call_tool jsonLoads registry name args
          = errJson ("Unknown tool: " ++ name)) ∧
      (∀ tool, lookupTool registry name = some tool →
        (∀ e, parseToolArgs jsonLoads args = Except.error e →
          call_tool jsonLoads registry name args = errJson e) ∧
        (∀ m e, parseToolArgs jsonLoads args = Except.ok m →
          tool.run m = Except.error e →
          call_tool jsonLoads registry name args = errJson e) ∧
        (∀ m r, parseToolArgs jsonLoads args = Except.ok m →
          tool.run m = Except.ok r →
          call_tool jsonLoads registry name args = r)) := by
  intro jsonLoads registry name args
  constructor
  · intro h
    simp [call_tool, h]
  · intro tool h
    refine ⟨fun e he => ?_, fun m e hm he => ?_, fun m r hm hr => ?_⟩
    · simp [call_tool, h, he]
    · simp [call_tool, h, hm, he]
    · simp [call_tool, h, hm, hr]

theorem c2_witness :
    call_tool (fun _ => Except.ok JsonVal.null) [] "nonexistent_tool"
        (ArgsJson.mapping [])
      = errJson ("Unknown tool: " ++ "nonexistent_tool") :=
  (c2_call_tool_never_raises _ _ _ _).1 rfl

/-- C5: the calculator on the parse of "2 + 2 * 3" returns the
success result with numeric value 8, and on the parse of the
expression __import__(...) applied to the string "os" returns a
failure result: the sandbox rejects the non-allow-listed identifier
with a NameError. -/
theorem c5_calculator_examples :
    ∀ (applyMath : String → List Value → Except String Value),
      «_calc_run» applyMath "2 + 2 * 3"
          (PyExpr.add (PyExpr.num 2) (PyExpr.mul (PyExpr.num 2) (PyExpr.num 3)))
        = "\x7b\"ok\": true, \"expression\": \"2 + 2 * 3\", \"result\": 8\x7d" ∧
      «_calc_run» applyMath
          ("__import__(" ++ apos ++ "os" ++ apos ++ ")")
          (PyExpr.call (PyExpr.name "__import__") (PyArgs.cons (PyExpr.strLit "os") PyArgs.nil))
        = errCalcJson "NameError: name __import__ is not defined" := by
  intro applyMath
  have h1 : evalExpr applyMath
      (PyExpr.add (PyExpr.num 2) (PyExpr.mul (PyExpr.num 2) (PyExpr.num 3)))
      = Except.ok (Value.num 8) := by
    simp [evalExpr, applyBinOp, Bind.bind, Except.bind]
    norm_num
  have h2 : evalExpr applyMath
      (PyExpr.call (PyExpr.name "__import__") (PyArgs.cons (PyExpr.strLit "os") PyArgs.nil))
      = Except.error "NameError: name __import__ is not defined" := by
    simp [evalExpr, lookupName, mathNames, Bind.bind, Except.bind]
  constructor
  · simp only [«_calc_run», h1]
    decide
  · simp only [«_calc_run», h2]



mutual

theorem evalOk_names (applyMath : String → List Value → Except String Value) :
    ∀ (e : PyExpr) (v : Value), evalExpr applyMath e = Except.ok v →
      ∀ n, n ∈ exprNames e → n ∈ mathNames
  | PyExpr.num _, v, h, n, hn => by simp [exprNames] at hn
  | PyExpr.strLit _, v, h, n, hn => by simp [exprNames] at hn
  | PyExpr.name m, v, h, n, hn => by
    simp only [exprNames, List.mem_singleton] at hn
    subst hn
    simp only [evalExpr, lookupName] at h
    split at h
    · assumption
    · exact absurd h (by simp)
  | PyExpr.neg e, v, h, n, hn => by
    simp only [exprNames] at hn
    simp only [evalExpr, Bind.bind, Except.bind] at h
    cases he : evalExpr applyMath e with
    | error m => rw [he] at h; simp at h
    | ok v1 => exact evalOk_names applyMath e v1 he n hn
  | PyExpr.add a b, v, h, n, hn => by
    simp only [exprNames, List.mem_append] at hn
    simp only [evalExpr, Bind.bind, Except.bind] at h
    cases ha : evalExpr applyMath a with
    | error m => rw [ha] at h; simp at h
    | ok va =>
      rw [ha] at h
      cases hb : evalExpr applyMath b with
      | error m => rw [hb] at h; simp at h
      | ok vb =>
        cases hn with
        | inl hna => exact evalOk_names applyMath a va ha n hna
        | inr hnb => exact evalOk_names applyMath b vb hb n hnb
  | PyExpr.sub a b, v, h, n, hn => by
    simp only [exprNames, List.mem_append] at hn
    simp only [evalExpr, Bind.bind, Except.bind] at h
    cases ha : evalExpr applyMath a with
    | error m => rw [ha] at h; simp at h
    | ok va =>
      rw [ha] at h
      cases hb : evalExpr applyMath b with
      | error m => rw [hb] at h; simp at h
      | ok vb =>
        cases hn with
        | inl hna => exact evalOk_names applyMath a va ha n hna
        | inr hnb => exact evalOk_names applyMath b vb hb n hnb
  | PyExpr.mul a b, v, h, n, hn => by
    simp only [exprNames, List.mem_append] at hn
    simp only [evalExpr, Bind.bind, Except.bind] at h
    cases ha : evalExpr applyMath a with
    | error m => rw [ha] at h; simp at h
    | ok va =>
      rw [ha] at h
      cases hb : evalExpr applyMath b with
      | error m => rw [hb] at h; simp at h
      | ok vb =>
        cases hn with
        | inl hna => exact evalOk_names applyMath a va ha n hna
        | inr hnb => exact evalOk_names applyMath b vb hb n hnb
  | PyExpr.div a b, v, h, n, hn => by
    simp only [exprNames, List.mem_append] at hn
    simp only [evalExpr, Bind.bind, Except.bind] at h
    cases ha : evalExpr applyMath a with
    | error m => rw [ha] at h; simp at h
    | ok va =>
      rw [ha] at h
      cases hb : evalExpr applyMath b with
      | error m => rw [hb] at h; simp at h
      | ok vb =>
        cases hn with
        | inl hna => exact evalOk_names applyMath a va ha n hna
        | inr hnb => exact evalOk_names applyMath b vb hb n hnb
  | PyExpr.pow a b, v, h, n, hn => by
    simp only [exprNames, List.mem_append] at hn
    simp only [evalExpr, Bind.bind, Except.bind] at h
    cases ha : evalExpr applyMath a with
    | error m => rw [ha] at h; simp at h
    | ok va =>
      rw [ha] at h
      cases hb : evalExpr applyMath b with
      | error m => rw [hb] at h; simp at h
      | ok vb =>
        cases hn with
        | inl hna => exact evalOk_names applyMath a va ha n hna
        | inr hnb => exact evalOk_names applyMath b vb hb n hnb
  | PyExpr.call f args, v, h, n, hn => by
    simp only [exprNames, List.mem_append] at hn
    simp only [evalExpr, Bind.bind, Except.bind] at h
    cases hf : evalExpr applyMath f with
    | error m => rw [hf] at h; simp at h
    | ok fv =>
      rw [hf] at h
      cases hargs : evalArgs applyMath args with
      | error m => rw [hargs] at h; simp at h
      | ok argv =>
        cases hn with
        | inl hnf => exact evalOk_names applyMath f fv hf n hnf
        | inr hna => exact evalArgsOk_names applyMath args argv hargs n hna

theorem evalArgsOk_names (applyMath : String → List Value → Except String Value) :
    ∀ (es : PyArgs) (vs : List Value), evalArgs applyMath es = Except.ok vs →
      ∀ n, n ∈ exprNamesList es → n ∈ mathNames
  | PyArgs.nil, vs, h, n, hn => by simp [exprNamesList] at hn
  | PyArgs.cons e es, vs, h, n, hn => by
    simp only [exprNamesList, List.mem_append] at hn
    simp only [evalArgs, Bind.bind, Except.bind] at h
    cases he : evalExpr applyMath e with
    | error m => rw [he] at h; simp at h
    | ok v1 =>
      rw [he] at h
      cases hes : evalArgs applyMath es with
      | error m => rw [hes] at h; simp at h
      | ok vs1 =>
        cases hn with
        | inl hne => exact evalOk_names applyMath e v1 he n hne
        | inr hnes => exact evalArgsOk_names applyMath es vs1 hes n hnes

end

/-- C4 counterexample: the claim holds `abs` and `round` to be on the
allow-list and available during evaluation, but the source builds the
globals from the `math` module only and empties `__builtins__`, so
evaluating `abs(-2)` or `round(2.5)` in the calculator fails with a
NameError instead of succeeding. -/
theorem c4_counterexample :
    «_calc_run» noMathApp "abs(-2)"
        (PyExpr.call (PyExpr.name "abs")
          (PyArgs.cons (PyExpr.neg (PyExpr.num 2)) PyArgs.nil))
      = errCalcJson "NameError: name abs is not defined" ∧
    «_calc_run» noMathApp "round(2.5)"
        (PyExpr.call (PyExpr.name "round")
          (PyArgs.cons (PyExpr.num (5/2)) PyArgs.nil))
      = errCalcJson "NameError: name round is not defined" := by
  constructor
  · decide
  · decide

/-- C4 amended: the calculator rejects (fails evaluation of) every
expression referencing an identifier outside the explicit allow-list,
which consists of the public `math`-module attributes only — `abs` and
`round` are not on it — and every identifier on that allow-list is
available during evaluation. Rejection is stated contrapositively:
a successful evaluation can only reference allow-listed names. -/
theorem c4_calculator_allow_list :
    ∀ (applyMath : String → List Value → Except String Value),
      ("abs" ∉ mathNames ∧ "round" ∉ mathNames) ∧
      (∀ n, n ∈ mathNames →
        evalExpr applyMath (PyExpr.name n) = Except.ok (Value.mathObj n)) ∧
      (∀ e v, evalExpr applyMath e = Except.ok v →
        ∀ n, n ∈ exprNames e → n ∈ mathNames) := by
  intro applyMath
  refine ⟨⟨by decide, by decide⟩, fun n hn => ?_,
    fun e v h n hn => evalOk_names applyMath e v h n hn⟩
  simp [evalExpr, lookupName, hn]

theorem c4_witness :
    evalExpr noMathApp (PyExpr.name "sqrt") = Except.ok (Value.mathObj "sqrt") :=
  (c4_calculator_allow_list noMathApp).2.1 "sqrt" (by decide)


theorem add_entry_lastN (L : Nat) (hL : 1 ≤ L) (m : Memory) (full : List MemEntry)
    (hlim : m.limit = L) (hent : m.entries = lastN full L)
    (role content now : String) (metadata : Option (List (String × MetaLit))) :
    (m.add_entry role content now metadata).limit = L ∧
    (m.add_entry role content now metadata).entries =
      lastN (full ++ [{ timestamp := now, role := role, content := content
                        metadata := metadata.getD [] }]) L := by
  set e : MemEntry :=
    { timestamp := now, role := role, content := content
      metadata := metadata.getD [] } with he
  refine ⟨by simp [Memory.add_entry, hlim], ?_⟩
  simp only [Memory.add_entry, hlim, hent]
  by_cases hlen : full.length ≤ L
  · have h1 : lastN full L = full := by
      simp [lastN, Nat.sub_eq_zero_of_le hlen]
    rw [h1]
    by_cases hlt : full.length < L
    · have : ¬ (full ++ [e]).length > L := by
        simp [List.length_append]
        omega
      simp only [if_neg this]
      have hz : full.length + 1 - L = 0 := by omega
      simp [lastN, List.length_append, hz]
    · -- full.length = L
      have hfl : full.length = L := le_antisymm hlen (not_lt.mp hlt)
      have hgt : (full ++ [e]).length > L := by
        simp [List.length_append, hfl]
      simp only [if_pos hgt]
      have hPS : pySliceLast (full ++ [e]) L = lastN (full ++ [e]) L := by
        simp [pySliceLast, lastN]
        intro h0
        omega
      rw [hPS]
  · push_neg at hlen
    have h1 : (lastN full L).length = L := by
      simp [lastN]
      omega
    have hgt : (lastN full L ++ [e]).length > L := by
      simp [List.length_append, h1]
    simp only [if_pos hgt]
    have hL0 : L ≠ 0 := by omega
    simp only [pySliceLast, if_neg hL0]
    have hlen2 : (lastN full L ++ [e]).length - L = 1 := by
      simp [List.length_append, h1]
    rw [hlen2]
    -- drop 1 (lastN full L ++ [e]) = lastN (full ++ [e]) L
    simp only [lastN]
    rw [List.drop_append_eq_append_drop]
    rw [List.drop_append_eq_append_drop]
    have hfull1 : (full ++ [e]).length - L = full.length + 1 - L := by
      simp [List.length_append]
    rw [hfull1]
    have h2 : full.length + 1 - L ≤ full.length := by omega
    have h3 : full.length + 1 - L - full.length = 0 := by omega
    have h4 : 1 - (lastN full L).length = 0 := by rw [h1]; omega
    simp only [lastN] at h4 ⊢
    rw [h3, h4]
    simp only [List.drop_zero]
    rw [List.drop_drop]
    have hidx : full.length - L + 1 = full.length + 1 - L := by omega
    rw [hidx]


theorem applyCalls_lastN (L : Nat) (hL : 1 ≤ L) :
    ∀ (cs : List AddCall) (m : Memory) (full : List MemEntry),
      m.limit = L → m.entries = lastN full L →
      (applyCalls m cs).limit = L ∧
      (applyCalls m cs).entries = lastN (full ++ cs.map callEntry) L
  | [], m, full, hlim, hent => by
    simp [applyCalls, hlim, hent]
  | c :: cs, m, full, hlim, hent => by
    have step := add_entry_lastN L hL m full hlim hent c.1 c.2.1 c.2.2.1 c.2.2.2
    have hce : ({ timestamp := c.2.2.1, role := c.1, content := c.2.1
                  metadata := c.2.2.2.getD [] } : MemEntry) = callEntry c := rfl
    rw [hce] at step
    have ih := applyCalls_lastN L hL cs (m.add_entry c.1 c.2.1 c.2.2.1 c.2.2.2)
      (full ++ [callEntry c]) step.1 step.2
    have happ : applyCalls m (c :: cs)
        = applyCalls (m.add_entry c.1 c.2.1 c.2.2.1 c.2.2.2) cs := rfl
    rw [happ]
    refine ⟨ih.1, ?_⟩
    rw [ih.2]
    simp [List.append_assoc]

/-- C10 counterexample: a buffer constructed with capacity limit 0
does not enforce its cap — `entries[-0:]` is the whole list in Python,
so after one `add_entry` the buffer holds 1 entry, exceeding the
claimed bound of at most `L = 0` entries. -/
theorem c10_counterexample :
    (Memory.add_entry { limit := 0, entries := [] } "user" "hi" "t" none).limit
        = 0 ∧
      (Memory.add_entry { limit := 0, entries := [] } "user" "hi" "t"
          none).entries.length = 1 := by
  constructor
  · rfl
  · rfl

/-- C10 amended: for every buffer constructed with capacity limit
`L ≥ 1` and every sequence of `add_entry` calls, after each call the
entries list holds at most `L` entries and is exactly the suffix of
the most recent `L` entries in their original insertion order (the
oldest entries having been discarded). Stated over a whole call
sequence replayed from the empty buffer; the per-call form follows by
truncating the sequence. -/
theorem c10_buffer_cap :
    ∀ (L : Nat), 1 ≤ L → ∀ (cs : List AddCall),
      (applyCalls { limit := L, entries := [] } cs).entries
          = lastN (cs.map callEntry) L ∧
        (applyCalls { limit := L, entries := [] } cs).entries.length ≤ L := by
  intro L hL cs
  have h := applyCalls_lastN L hL cs { limit := L, entries := [] } [] rfl
    (by simp [lastN])
  rw [List.nil_append] at h
  refine ⟨h.2, ?_⟩
  rw [h.2]
  simp only [lastN, List.length_drop]
  omega

theorem c10_witness :
    (applyCalls { limit := 2, entries := [] }
        [("system", "a", "t1", none), ("user", "b", "t2", none),
         ("assistant", "c", "t3", none)]).entries
      = lastN ([("system", "a", "t1", none), ("user", "b", "t2", none),
         ("assistant", "c", "t3", none)].map callEntry) 2 ∧
    (applyCalls { limit := 2, entries := [] }
        [("system", "a", "t1", none), ("user", "b", "t2", none),
         ("assistant", "c", "t3", none)]).entries.length ≤ 2 :=
  c10_buffer_cap 2 (by decide)
    [("system", "a", "t1", none), ("user", "b", "t2", none),
     ("assistant", "c", "t3", none)]

theorem dotQ_append (a c : List ℚ) (b d : List ℚ) (h : a.length = c.length) :
    dotQ (a ++ b) (c ++ d) = dotQ a c + dotQ b d := by
  induction a generalizing c with
  | nil =>
    cases c with
    | nil => simp [dotQ]
    | cons y ys => simp at h
  | cons x xs ih =>
    cases c with
    | nil => simp at h
    | cons y ys =>
      simp only [List.length_cons, Nat.succ.injEq] at h
      simp only [List.cons_append, dotQ, List.append_eq]
      rw [ih ys h]
      ring

theorem dotQ_replicate_self (n : Nat) (a : ℚ) :
    dotQ (List.replicate n a) (List.replicate n a) = n * a ^ 2 := by
  induction n with
  | zero => simp [dotQ]
  | succ k ih =>
    simp only [List.replicate_succ, dotQ, ih]
    push_cast
    ring

theorem byteFeatures_zero : byteFeatures 0 = [-1, -1, -1, -1] := by
  norm_num [byteFeatures]

theorem flatten_replicate_four (n : Nat) (a : ℚ) :
    (List.replicate n [a, a, a, a]).flatten = List.replicate (4 * n) a := by
  induction n with
  | zero => simp
  | succ k ih =>
    simp only [List.replicate_succ, List.flatten_cons, ih]
    have : 4 * (k + 1) = 4 + 4 * k := by ring
    rw [this, List.replicate_add]
    rfl

theorem simple_embedding_shaZero (text : String) :
    simple_embedding shaZero text
      = List.replicate 128 (-1) ++ List.replicate 256 0 := by
  simp only [simple_embedding, shaZero]
  rw [List.take_replicate]
  norm_num
  rw [byteFeatures_zero, flatten_replicate_four]
  norm_num

theorem dotQ_embedC :
    dotQ (simple_embedding shaZero "c") (simple_embedding shaZero "c") = 128 := by
  rw [simple_embedding_shaZero]
  rw [dotQ_append _ _ _ _ rfl]
  rw [dotQ_replicate_self, dotQ_replicate_self]
  norm_num


theorem cosSimGT_embC_strict :
    cosSimGT (simple_embedding shaZero "c") (simple_embedding shaZero "c")
      (19/20) = true := by
  simp only [cosSimGT, dotQ_embedC]
  norm_num

theorem cosSimGT_embC_eq :
    cosSimGT (simple_embedding shaZero "c") (simple_embedding shaZero "c")
      1 = false := by
  simp only [cosSimGT, dotQ_embedC]
  norm_num

theorem cosSimGE_embC_eq :
    cosSimGE (simple_embedding shaZero "c") (simple_embedding shaZero "c")
      1 = true := by
  simp only [cosSimGE, dotQ_embedC]
  norm_num

theorem consolidate_pair_below_threshold
    (embed : String → List ℚ) (ra rb : StoredRec) (t : ℚ)
    (hsim : cosSimGT (embed ra.document) (embed rb.document) t = false) :
    consolidate_memories embed [ra, rb] t = (0, [ra, rb]) := by
  have hmark : consolidateMark [ra.id, rb.id]
      [embed ra.document, embed rb.document] [ra.metadata, rb.metadata] t
      = [] := by
    simp [consolidateMark, consolidateMarkAux, consolidateInner, hsim,
      List.range_succ, List.range']
  simp only [consolidate_memories, List.length_cons, List.length_nil,
    List.map_cons, List.map_nil]
  rw [if_neg (by omega)]
  simp [hmark]

/-- Two-record consolidation, fully characterised: when the pair is
strictly similar, the lower-importance record is deleted (the first
kept on ties) and 1 is returned. -/
theorem consolidate_pair_strict :
    ∀ (embed : String → List ℚ) (ra rb : StoredRec) (t : ℚ),
      ra.id ≠ rb.id →
      cosSimGT (embed ra.document) (embed rb.document) t = true →
      consolidate_memories embed [ra, rb] t
        = (1, if impOf ra.metadata ≥ impOf rb.metadata then [ra] else [rb]) := by
  intro embed ra rb t hne hsim
  have hmark : consolidateMark [ra.id, rb.id]
      [embed ra.document, embed rb.document] [ra.metadata, rb.metadata] t
      = if impOf ra.metadata ≥ impOf rb.metadata then [rb.id] else [ra.id] := by
    by_cases himp : impOf ra.metadata ≥ impOf rb.metadata
    · simp [consolidateMark, consolidateMarkAux, consolidateInner, addId,
        hsim, himp, List.range_succ, List.range', Ne.symm hne]
    · simp [consolidateMark, consolidateMarkAux, consolidateInner, addId,
        hsim, himp, List.range_succ, List.range', hne]
  by_cases himp : impOf ra.metadata ≥ impOf rb.metadata
  · simp only [consolidate_memories, List.length_cons, List.length_nil,
      List.map_cons, List.map_nil]
    rw [if_neg (by omega)]
    simp [hmark, if_pos himp, List.filter, Ne.symm hne, hne]
  · simp only [consolidate_memories, List.length_cons, List.length_nil,
      List.map_cons, List.map_nil]
    rw [if_neg (by omega)]
    simp [hmark, if_neg himp, List.filter, Ne.symm hne, hne]

/-- C3 counterexample: the claim asserts removal already at
similarity ≥ threshold, but the source compares with strict `>`. Two
records with identical content (cosine similarity exactly 1) and
importances 0.9 and 0.3, consolidated at threshold 1, satisfy
"similarity ≥ threshold", yet `consolidate_memories` removes nothing
and returns 0 instead of removing the importance-0.3 record and
returning 1. -/
theorem c3_counterexample :
    cosSimGE (simple_embedding shaZero r1C.document)
        (simple_embedding shaZero r2C.document) 1 = true ∧
    impOf r1C.metadata = 9/10 ∧ impOf r2C.metadata = 3/10 ∧
    consolidate_memories (simple_embedding shaZero) [r1C, r2C] 1
      = (0, [r1C, r2C]) := by
  refine ⟨cosSimGE_embC_eq, rfl, rfl, ?_⟩
  exact consolidate_pair_below_threshold _ _ _ _ cosSimGT_embC_eq

theorem mem_addId_of_mem {td : List String} {x : String} (y : String)
    (h : x ∈ td) : x ∈ addId td y := by
  simp only [addId]
  split
  · exact h
  · exact List.mem_append_left _ h

theorem mem_addId_self (td : List String) (y : String) : y ∈ addId td y := by
  simp only [addId]
  split
  · assumption
  · exact List.mem_append_right _ (List.mem_singleton_self y)

theorem mem_addId_cases {td : List String} {x y : String}
    (h : x ∈ addId td y) : x ∈ td ∨ x = y := by
  simp only [addId] at h
  split at h
  · exact Or.inl h
  · rcases List.mem_append.mp h with h1 | h2
    · exact Or.inl h1
    · exact Or.inr (List.mem_singleton.mp h2)

theorem addId_nodup {td : List String} (h : td.Nodup) (y : String) :
    (addId td y).Nodup := by
  simp only [addId]
  split
  · exact h
  · rename_i hy
    simp [List.nodup_append, h, hy]

theorem consolidateInner_mono (ids : List String) (embs : List (List ℚ))
    (metas : List Metadata) (t : ℚ) (i : Nat) :
    ∀ (js : List Nat) (td : List String) (x : String), x ∈ td →
      x ∈ consolidateInner ids embs metas t i js td
  | [], _, _, h => h
  | j :: js, td, x, h => by
    simp only [consolidateInner]
    apply consolidateInner_mono ids embs metas t i js
    split
    · exact h
    · split
      · split
        · exact mem_addId_of_mem _ h
        · exact mem_addId_of_mem _ h
      · exact h

theorem consolidateMarkAux_mono (ids : List String) (embs : List (List ℚ))
    (metas : List Metadata) (t : ℚ) :
    ∀ (ks : List Nat) (td : List String) (x : String), x ∈ td →
      x ∈ consolidateMarkAux ids embs metas t ks td
  | [], _, _, h => h
  | i :: ks, td, x, h => by
    simp only [consolidateMarkAux]
    apply consolidateMarkAux_mono ids embs metas t ks
    split
    · exact h
    · exact consolidateInner_mono ids embs metas t i _ td x h

theorem consolidateInner_coverage (ids : List String) (embs : List (List ℚ))
    (metas : List Metadata) (t : ℚ) (i : Nat) :
    ∀ (js : List Nat) (td : List String) (j : Nat), j ∈ js →
      cosSimGT ((embs.get? i).getD []) ((embs.get? j).getD []) t = true →
      (ids.get? i).getD "" ∈ consolidateInner ids embs metas t i js td ∨
      (ids.get? j).getD "" ∈ consolidateInner ids embs metas t i js td
  | [], _, j, hj, _ => absurd hj (List.not_mem_nil j)
  | j' :: js, td, j, hj, hsim => by
    rcases List.mem_cons.mp hj with rfl | hj2
    · simp only [consolidateInner]
      by_cases h1 : (ids.get? j).getD "" ∈ td
      · rw [if_pos h1]
        right
        exact consolidateInner_mono ids embs metas t i js td _ h1
      · rw [if_neg h1, if_pos hsim]
        by_cases himp : impOf ((metas.get? i).getD {})
            ≥ impOf ((metas.get? j).getD {})
        · rw [if_pos himp]
          right
          exact consolidateInner_mono ids embs metas t i js _ _
            (mem_addId_self td _)
        · rw [if_neg himp]
          left
          exact consolidateInner_mono ids embs metas t i js _ _
            (mem_addId_self td _)
    · simp only [consolidateInner]
      exact consolidateInner_coverage ids embs metas t i js _ j hj2 hsim

theorem consolidateMarkAux_coverage (ids : List String)
    (embs : List (List ℚ)) (metas : List Metadata) (t : ℚ) :
    ∀ (ks : List Nat) (td : List String) (i j : Nat), i ∈ ks → i < j →
      j < ids.length →
      cosSimGT ((embs.get? i).getD []) ((embs.get? j).getD []) t = true →
      (ids.get? i).getD "" ∈ consolidateMarkAux ids embs metas t ks td ∨
      (ids.get? j).getD "" ∈ consolidateMarkAux ids embs metas t ks td
  | [], _, i, _, hik, _, _, _ => absurd hik (List.not_mem_nil i)
  | i' :: ks, td, i, j, hik, hij, hjn, hsim => by
    rcases List.mem_cons.mp hik with rfl | hik2
    · simp only [consolidateMarkAux]
      by_cases h1 : (ids.get? i).getD "" ∈ td
      · rw [if_pos h1]
        left
        exact consolidateMarkAux_mono ids embs metas t ks _ _ h1
      · rw [if_neg h1]
        have hjr : j ∈ List.range' (i + 1) (ids.length - (i + 1)) := by
          rw [List.mem_range'_1]
          omega
        rcases consolidateInner_coverage ids embs metas t i _ td j hjr hsim
          with h | h
        · left
          exact consolidateMarkAux_mono ids embs metas t ks _ _ h
        · right
          exact consolidateMarkAux_mono ids embs metas t ks _ _ h
    · simp only [consolidateMarkAux]
      exact consolidateMarkAux_coverage ids embs metas t ks _ i j hik2 hij
        hjn hsim

theorem consolidateMark_coverage (ids : List String) (embs : List (List ℚ))
    (metas : List Metadata) (t : ℚ) (i j : Nat) (hij : i < j)
    (hjn : j < ids.length)
    (hsim : cosSimGT ((embs.get? i).getD []) ((embs.get? j).getD []) t
      = true) :
    (ids.get? i).getD "" ∈ consolidateMark ids embs metas t ∨
    (ids.get? j).getD "" ∈ consolidateMark ids embs metas t :=
  consolidateMarkAux_coverage ids embs metas t (List.range ids.length) [] i j
    (List.mem_range.mpr (by omega)) hij hjn hsim


theorem consolidateInner_justified (ids : List String)
    (embs : List (List ℚ)) (metas : List Metadata) (t : ℚ) (i : Nat) :
    ∀ (js : List Nat) (td : List String),
      (∀ j ∈ js, i < j ∧ j < ids.length) →
      (∀ x ∈ td, markJustified ids embs metas t x) →
      ∀ x ∈ consolidateInner ids embs metas t i js td,
        markJustified ids embs metas t x
  | [], _, _, hinv, x, hx => hinv x hx
  | j :: js, td, hb, hinv, x, hx => by
    simp only [consolidateInner] at hx
    refine consolidateInner_justified ids embs metas t i js _
      (fun j' hj' => hb j' (List.mem_cons_of_mem _ hj')) ?_ x hx
    intro y hy
    by_cases h1 : (ids.get? j).getD "" ∈ td
    · rw [if_pos h1] at hy
      exact hinv y hy
    · rw [if_neg h1] at hy
      by_cases hsim : cosSimGT ((embs.get? i).getD [])
          ((embs.get? j).getD []) t = true
      · rw [if_pos hsim] at hy
        obtain ⟨hij, hjn⟩ := hb j (List.mem_cons_self _ _)
        by_cases himp : impOf ((metas.get? i).getD {})
            ≥ impOf ((metas.get? j).getD {})
        · rw [if_pos himp] at hy
          rcases mem_addId_cases hy with h | heq
          · exact hinv y h
          · exact ⟨i, j, hij, hjn, hsim, Or.inl ⟨himp, heq⟩⟩
        · rw [if_neg himp] at hy
          rcases mem_addId_cases hy with h | heq
          · exact hinv y h
          · exact ⟨i, j, hij, hjn, hsim, Or.inr ⟨not_le.mp himp, heq⟩⟩
      · rw [if_neg hsim] at hy
        exact hinv y hy

theorem consolidateMarkAux_justified (ids : List String)
    (embs : List (List ℚ)) (metas : List Metadata) (t : ℚ) :
    ∀ (ks : List Nat) (td : List String),
      (∀ i ∈ ks, i < ids.length) →
      (∀ x ∈ td, markJustified ids embs metas t x) →
      ∀ x ∈ consolidateMarkAux ids embs metas t ks td,
        markJustified ids embs metas t x
  | [], _, _, hinv, x, hx => hinv x hx
  | i :: ks, td, hb, hinv, x, hx => by
    simp only [consolidateMarkAux] at hx
    refine consolidateMarkAux_justified ids embs metas t ks _
      (fun i' hi' => hb i' (List.mem_cons_of_mem _ hi')) ?_ x hx
    intro y hy
    by_cases h1 : (ids.get? i).getD "" ∈ td
    · rw [if_pos h1] at hy
      exact hinv y hy
    · rw [if_neg h1] at hy
      refine consolidateInner_justified ids embs metas t i _ td ?_ hinv y hy
      intro j hj
      rw [List.mem_range'_1] at hj
      have hin := hb i (List.mem_cons_self _ _)
      exact ⟨by omega, by omega⟩

theorem consolidateMark_justified (ids : List String)
    (embs : List (List ℚ)) (metas : List Metadata) (t : ℚ) :
    ∀ x ∈ consolidateMark ids embs metas t,
      markJustified ids embs metas t x :=
  consolidateMarkAux_justified ids embs metas t (List.range ids.length) []
    (fun _ hi => List.mem_range.mp hi)
    (fun x hx => absurd hx (List.not_mem_nil x))

theorem consolidateInner_nodup (ids : List String) (embs : List (List ℚ))
    (metas : List Metadata) (t : ℚ) (i : Nat) :
    ∀ (js : List Nat) (td : List String), td.Nodup →
      (consolidateInner ids embs metas t i js td).Nodup
  | [], _, h => h
  | j :: js, td, h => by
    simp only [consolidateInner]
    apply consolidateInner_nodup ids embs metas t i js
    split
    · exact h
    · split
      · split
        · exact addId_nodup h _
        · exact addId_nodup h _
      · exact h

theorem consolidateMarkAux_nodup (ids : List String) (embs : List (List ℚ))
    (metas : List Metadata) (t : ℚ) :
    ∀ (ks : List Nat) (td : List String), td.Nodup →
      (consolidateMarkAux ids embs metas t ks td).Nodup
  | [], _, h => h
  | i :: ks, td, h => by
    simp only [consolidateMarkAux]
    apply consolidateMarkAux_nodup ids embs metas t ks
    split
    · exact h
    · exact consolidateInner_nodup ids embs metas t i _ td h

theorem consolidateMark_nodup (ids : List String) (embs : List (List ℚ))
    (metas : List Metadata) (t : ℚ) :
    (consolidateMark ids embs metas t).Nodup :=
  consolidateMarkAux_nodup ids embs metas t (List.range ids.length) []
    List.nodup_nil

theorem getD_mem {l : List String} {k : Nat} (h : k < l.length) (d : String) :
    (l.get? k).getD d ∈ l := by
  rw [List.get?_eq_get h]
  exact List.get_mem l k h

theorem consolidateMark_sub (ids : List String) (embs : List (List ℚ))
    (metas : List Metadata) (t : ℚ) :
    ∀ x ∈ consolidateMark ids embs metas t, x ∈ ids := by
  intro x hx
  obtain ⟨i, j, hij, hjn, _, hcase⟩ :=
    consolidateMark_justified ids embs metas t x hx
  rcases hcase with ⟨_, rfl⟩ | ⟨_, rfl⟩
  · exact getD_mem hjn ""
  · exact getD_mem (by omega) ""


theorem length_filter_split (l : List StoredRec) (p : StoredRec → Bool) :
    (l.filter p).length + (l.filter (fun a => !p a)).length = l.length := by
  induction l with
  | nil => rfl
  | cons a l ih =>
    cases h : p a
    · simp [List.filter_cons, h]
      omega
    · simp [List.filter_cons, h]
      omega

theorem map_id_filter_mem (st : VMState) (td : List String) :
    (st.filter (fun r => r.id ∈ td)).map StoredRec.id
      = (st.map StoredRec.id).filter (fun x => x ∈ td) := by
  induction st with
  | nil => rfl
  | cons r st ih =>
    by_cases h : r.id ∈ td
    · simp [List.filter_cons, h, ih]
    · simp [List.filter_cons, h, ih]

theorem filter_mem_length (st : VMState) (td : List String)
    (hids : (st.map StoredRec.id).Nodup) (htd : td.Nodup)
    (hsub : ∀ x ∈ td, x ∈ st.map StoredRec.id) :
    (st.filter (fun r => r.id ∈ td)).length = td.length := by
  have h1 : (st.filter (fun r => r.id ∈ td)).length
      = ((st.map StoredRec.id).filter (fun x => x ∈ td)).length := by
    rw [← map_id_filter_mem, List.length_map]
  rw [h1]
  have hf : ((st.map StoredRec.id).filter
      (fun x => decide (x ∈ td))).Nodup := hids.filter _
  have hperm : List.Perm
      ((st.map StoredRec.id).filter (fun x => decide (x ∈ td))) td := by
    rw [List.perm_ext_iff_of_nodup hf htd]
    intro a
    simp only [List.mem_filter, decide_eq_true_eq]
    constructor
    · rintro ⟨_, h⟩
      exact h
    · intro ha
      exact ⟨hsub a ha, ha⟩
  exact hperm.length_eq

theorem consolidate_count (embed : String → List ℚ) (st : VMState) (t : ℚ)
    (hids : (st.map StoredRec.id).Nodup) :
    (consolidate_memories embed st t).1
      + (consolidate_memories embed st t).2.length = st.length := by
  by_cases hlen : st.length < 2
  · simp [consolidate_memories, hlen]
  · simp only [consolidate_memories, if_neg hlen]
    have hmn := consolidateMark_nodup (st.map StoredRec.id)
      ((st.map StoredRec.document).map embed)
      (st.map StoredRec.metadata) t
    have hms := consolidateMark_sub (st.map StoredRec.id)
      ((st.map StoredRec.document).map embed)
      (st.map StoredRec.metadata) t
    have h1 := filter_mem_length st
      (consolidateMark (st.map StoredRec.id)
        ((st.map StoredRec.document).map embed)
        (st.map StoredRec.metadata) t) hids hmn hms
    have h2 := length_filter_split st
      (fun r => decide (r.id ∈ consolidateMark (st.map StoredRec.id)
        ((st.map StoredRec.document).map embed)
        (st.map StoredRec.metadata) t))
    simp only [decide_not]
    omega


theorem get?_map_id (st : VMState) (k : Nat) (r : StoredRec)
    (h : st.get? k = some r) :
    ((st.map StoredRec.id).get? k).getD "" = r.id := by
  rw [List.get?_map, h]
  rfl

theorem get?_map_emb (embed : String → List ℚ) (st : VMState) (k : Nat)
    (r : StoredRec) (h : st.get? k = some r) :
    (((st.map StoredRec.document).map embed).get? k).getD []
      = embed r.document := by
  rw [List.get?_map, List.get?_map, h]
  rfl

theorem get?_map_meta (st : VMState) (k : Nat) (r : StoredRec)
    (h : st.get? k = some r) :
    ((st.map StoredRec.metadata).get? k).getD {} = r.metadata := by
  rw [List.get?_map, h]
  rfl

/-- C3 amended: over every stored collection whose ids are distinct,
`consolidate_memories` treats every pair of records whose re-computed
embeddings have cosine similarity strictly exceeding the threshold as
near-duplicates: (coverage) no such pair survives consolidation
intact; (justification) a record is deleted only as the
lower-importance member of such a pair, the first-encountered member
being kept when importances are equal (keep-on-`≥`); and (count) the
returned number plus the number of surviving records equals the
collection size, i.e. the count of records removed is returned. In
particular (final conjunct), a two-record collection with a strictly
similar pair loses exactly its lower-importance record and the call
returns 1. -/
theorem c3_consolidate_pairwise :
    (∀ (embed : String → List ℚ) (st : VMState) (t : ℚ),
      (st.map StoredRec.id).Nodup →
      (∀ (i j : Nat) (ri rj : StoredRec), i < j →
        st.get? i = some ri → st.get? j = some rj →
        cosSimGT (embed ri.document) (embed rj.document) t = true →
        ¬(ri ∈ (consolidate_memories embed st t).2 ∧
          rj ∈ (consolidate_memories embed st t).2)) ∧
      (∀ r ∈ st, r ∉ (consolidate_memories embed st t).2 →
        ∃ (i j : Nat) (ri rj : StoredRec), i < j ∧
          st.get? i = some ri ∧ st.get? j = some rj ∧
          cosSimGT (embed ri.document) (embed rj.document) t = true ∧
          ((impOf ri.metadata ≥ impOf rj.metadata ∧ r = rj) ∨
           (impOf ri.metadata < impOf rj.metadata ∧ r = ri))) ∧
      ((consolidate_memories embed st t).1
        + (consolidate_memories embed st t).2.length = st.length)) ∧
    (∀ (embed : String → List ℚ) (ra rb : StoredRec) (t : ℚ),
      ra.id ≠ rb.id →
      cosSimGT (embed ra.document) (embed rb.document) t = true →
      consolidate_memories embed [ra, rb] t
        = (1, if impOf ra.metadata ≥ impOf rb.metadata then [ra] else [rb])) := by
  constructor
  · intro embed st t hids
    refine ⟨?_, ?_, consolidate_count embed st t hids⟩
    · -- coverage
      intro i j ri rj hij hgi hgj hsim
      have hjn : j < st.length := by
        obtain ⟨h, _⟩ := List.get?_eq_some.mp hgj
        exact h
      by_cases hlen : st.length < 2
      · omega
      · simp only [consolidate_memories, if_neg hlen]
        have hsim' : cosSimGT
            ((((st.map StoredRec.document).map embed).get? i).getD [])
            ((((st.map StoredRec.document).map embed).get? j).getD []) t
            = true := by
          rw [get?_map_emb embed st i ri hgi, get?_map_emb embed st j rj hgj]
          exact hsim
        have hcov := consolidateMark_coverage (st.map StoredRec.id)
          ((st.map StoredRec.document).map embed)
          (st.map StoredRec.metadata) t i j hij
          (by rw [List.length_map]; exact hjn) hsim'
        rw [get?_map_id st i ri hgi, get?_map_id st j rj hgj] at hcov
        rintro ⟨hri, hrj⟩
        rcases hcov with h | h
        · have := (List.mem_filter.mp hri).2
          simp only [decide_not, Bool.not_eq_true', decide_eq_false_iff_not]
            at this
          exact this h
        · have := (List.mem_filter.mp hrj).2
          simp only [decide_not, Bool.not_eq_true', decide_eq_false_iff_not]
            at this
          exact this h
    · -- justification
      intro r hr hnot
      by_cases hlen : st.length < 2
      · exfalso
        apply hnot
        simp only [consolidate_memories, if_pos hlen]
        exact hr
      · simp only [consolidate_memories, if_neg hlen] at hnot
        have hrid : r.id ∈ consolidateMark (st.map StoredRec.id)
            ((st.map StoredRec.document).map embed)
            (st.map StoredRec.metadata) t := by
          by_contra hmem
          exact hnot (List.mem_filter.mpr ⟨hr, by simpa using hmem⟩)
        obtain ⟨i, j, hij, hjn', hsim', hcase⟩ :=
          consolidateMark_justified (st.map StoredRec.id)
            ((st.map StoredRec.document).map embed)
            (st.map StoredRec.metadata) t r.id hrid
        rw [List.length_map] at hjn'
        have hin : i < st.length := by omega
        obtain ⟨rj, hgj⟩ : ∃ rj, st.get? j = some rj :=
          ⟨st.get ⟨j, hjn'⟩, List.get?_eq_get hjn'⟩
        obtain ⟨ri, hgi⟩ : ∃ ri, st.get? i = some ri :=
          ⟨st.get ⟨i, hin⟩, List.get?_eq_get hin⟩
        rw [get?_map_emb embed st i ri hgi, get?_map_emb embed st j rj hgj]
          at hsim'
        rw [get?_map_meta st i ri hgi, get?_map_meta st j rj hgj] at hcase
        rw [get?_map_id st i ri hgi, get?_map_id st j rj hgj] at hcase
        refine ⟨i, j, ri, rj, hij, hgi, hgj, hsim', ?_⟩
        rcases hcase with ⟨himp, heq⟩ | ⟨himp, heq⟩
        · exact Or.inl ⟨himp,
            List.inj_on_of_nodup_map hids hr (List.get?_mem hgj) heq⟩
        · exact Or.inr ⟨himp,
            List.inj_on_of_nodup_map hids hr (List.get?_mem hgi) heq⟩
  · exact consolidate_pair_strict

theorem c3_witness :
    consolidate_memories (simple_embedding shaZero) [r1C, r2C] (19/20)
        = (1, [r1C]) ∧
    (consolidate_memories (simple_embedding shaZero) [r1C, r2C] (19/20)).1
        + (consolidate_memories (simple_embedding shaZero)
            [r1C, r2C] (19/20)).2.length = 2 ∧
    ¬(r1C ∈ (consolidate_memories (simple_embedding shaZero)
          [r1C, r2C] (19/20)).2 ∧
      r2C ∈ (consolidate_memories (simple_embedding shaZero)
          [r1C, r2C] (19/20)).2) := by
  have h2 := c3_consolidate_pairwise.2 (simple_embedding shaZero) r1C r2C
    (19/20) (by decide) cosSimGT_embC_strict
  have h1 := c3_consolidate_pairwise.1 (simple_embedding shaZero) [r1C, r2C]
    (19/20) (by decide)
  refine ⟨?_, h1.2.2, h1.1 0 1 r1C r2C (by omega) rfl rfl cosSimGT_embC_strict⟩
  rw [h2]
  have himp : impOf r1C.metadata ≥ impOf r2C.metadata := by
    show (9:ℚ)/10 ≥ 3/10
    norm_num
  rw [if_pos himp]


theorem agentSteps_all_failures (oracle : Nat → ModelOutcome)
    (ctf : String → String → String)
    (h : ∀ s, ∃ e, oracle s = ModelOutcome.failure e ∧ isQuotaError e = false) :
    ∀ (fuel step : Nat) (msgs : List Msg) (used : Nat),
      agentSteps oracle ctf fuel step msgs used = ⟨none, msgs, used + fuel⟩ := by
  intro fuel
  induction fuel with
  | zero => intro step msgs used; simp [agentSteps]
  | succ k ih =>
    intro step msgs used
    obtain ⟨e, he, hq⟩ := h step
    rw [show agentSteps oracle ctf (k + 1) step msgs used
        = agentSteps oracle ctf k (step + 1) msgs (used + 1) from by
      simp [agentSteps, he, hq]]
    rw [ih]
    congr 1
    omega

/-- C6 counterexample: the claim says a malformed (unparseable) model
response is logged and retried by continuing to further steps, but the
`except KeyError` branch of `run_agent` breaks out of the loop: with a
response whose parsing fails at step 1, the run makes exactly 1 model
call (of the MAX_STEPS = 6 budgeted), stores nothing, and returns the
fallback sentence — the loop aborts instead of continuing. -/
theorem c6_counterexample :
    run_agent (fun _ => ModelOutcome.malformed "choices") (fun _ _ => "")
        true false [] "t"
      = Except.ok ⟨fallbackAnswer, 1,
          [mkMsg "system" SYSTEM_PROMPT, mkMsg "user" "t"], []⟩ ∧
      MAX_STEPS = 6 := by
  constructor
  · rfl
  · rfl

/-- C6 amended: a malformed model response (KeyError while indexing
the response) aborts the loop at that step; a generic model-call
exception whose text does not mention quota or rate limits is logged
and retried by continuing to the next step, bounded by the step
ceiling — a run whose every call fails that way makes exactly
MAX_STEPS calls and returns the fallback sentence. -/
theorem c6_model_error_paths :
    (∀ (oracle : Nat → ModelOutcome) (ctf : String → String → String)
       (fuel step used : Nat) (msgs : List Msg) (e : String),
       oracle step = ModelOutcome.malformed e →
       agentSteps oracle ctf (fuel + 1) step msgs used
         = ⟨none, msgs, used + 1⟩) ∧
    (∀ (oracle : Nat → ModelOutcome) (ctf : String → String → String)
       (fuel step used : Nat) (msgs : List Msg) (e : String),
       oracle step = ModelOutcome.failure e → isQuotaError e = false →
       agentSteps oracle ctf (fuel + 1) step msgs used
         = agentSteps oracle ctf fuel (step + 1) msgs (used + 1)) ∧
    (∀ (oracle : Nat → ModelOutcome) (ctf : String → String → String)
       (vectorAvailable : Bool) (rel : List String) (task : String),
       (∀ s, ∃ e, oracle s = ModelOutcome.failure e ∧ isQuotaError e = false) →
       (run_agent oracle ctf true vectorAvailable rel task).map
           (fun r => (r.stepsUsed, r.answer))
         = Except.ok (MAX_STEPS, fallbackAnswer)) := by
  refine ⟨?_, ?_, ?_⟩
  · intro oracle ctf fuel step used msgs e he
    simp [agentSteps, he]
  · intro oracle ctf fuel step used msgs e he hq
    simp [agentSteps, he, hq]
  · intro oracle ctf va rel task h
    have hloop := agentSteps_all_failures oracle ctf h
    simp [run_agent, hloop, Except.map]

theorem c6_witness :
    (run_agent (fun _ => ModelOutcome.failure "boom") (fun _ _ => "")
        true false [] "t").map (fun r => (r.stepsUsed, r.answer))
      = Except.ok (MAX_STEPS, fallbackAnswer) :=
  c6_model_error_paths.2.2 (fun _ => ModelOutcome.failure "boom")
    (fun _ _ => "") false [] "t"
    (fun _ => ⟨"boom", rfl, by decide⟩)

theorem agentSteps_nonFinal (oracle : Nat → ModelOutcome)
    (ctf : String → String → String) :
    ∀ (fuel step : Nat) (msgs : List Msg) (used : Nat),
      (∀ s, step ≤ s → s < step + fuel → nonFinalReply (oracle s)) →
      (agentSteps oracle ctf fuel step msgs used).finalAnswer = none ∧
      (agentSteps oracle ctf fuel step msgs used).stepsUsed = used + fuel := by
  intro fuel
  induction fuel with
  | zero => intro step msgs used h; simp [agentSteps]
  | succ k ih =>
    intro step msgs used h
    obtain ⟨fc, content, heq, hcase⟩ := h step (Nat.le_refl _) (by omega)
    have hrest : ∀ s, step + 1 ≤ s → s < (step + 1) + k → nonFinalReply (oracle s) :=
      fun s h1 h2 => h s (by omega) (by omega)
    cases fc with
    | some p =>
      obtain ⟨fname, fargs⟩ := p
      have hstep : agentSteps oracle ctf (k + 1) step msgs used
          = agentSteps oracle ctf k (step + 1)
              ((msgs ++ [{ role := "assistant",
                           function_call := some (fname, fargs) }]) ++
                [{ role := "function", name := some fname,
                   content := some (ctf fname fargs) }])
              (used + 1) := by
        simp [agentSteps, heq]
      rw [hstep]
      obtain ⟨ih1, ih2⟩ := ih (step + 1) _ (used + 1) hrest
      exact ⟨ih1, by rw [ih2]; omega⟩
    | none =>
      rcases hcase with hfc | hc | hc
      · simp at hfc
      · subst hc
        have hstep : agentSteps oracle ctf (k + 1) step msgs used
            = agentSteps oracle ctf k (step + 1) msgs (used + 1) := by
          simp [agentSteps, heq]
        rw [hstep]
        obtain ⟨ih1, ih2⟩ := ih (step + 1) _ (used + 1) hrest
        exact ⟨ih1, by rw [ih2]; omega⟩
      · subst hc
        have hstep : agentSteps oracle ctf (k + 1) step msgs used
            = agentSteps oracle ctf k (step + 1) msgs (used + 1) := by
          simp [agentSteps, heq]
        rw [hstep]
        obtain ⟨ih1, ih2⟩ := ih (step + 1) _ (used + 1) hrest
        exact ⟨ih1, by rw [ih2]; omega⟩

theorem pyStrip_append_false (s t : String)
    (h : pyStripIsEmpty s = false) : pyStripIsEmpty (s ++ t) = false := by
  have hd : (s ++ t).toList = s.toList ++ t.toList := rfl
  simp only [pyStripIsEmpty] at h ⊢
  rw [hd, List.all_append, h]
  rfl

/-- C1: for every run of `run_agent` whose model responses are all
well-formed yet never carry final textual content (tool calls or empty
turns alike), the loop makes exactly `MAX_STEPS` model calls,
`run_agent` returns the fixed fallback sentence, and — the vector
store being available — issues exactly one memory store with
`memory_type="experience"` and `importance=0.3`, which persists
exactly one record on every collection state (its content is not
blank, so `store_memory` appends one record). -/
theorem c1_step_limit_run :
    ∀ (oracle : Nat → ModelOutcome) (ctf : String → String → String)
      (rel : List String) (task : String),
      (∀ s, 1 ≤ s → s ≤ MAX_STEPS → nonFinalReply (oracle s)) →
      (run_agent oracle ctf true true rel task).map
          (fun r => (r.stepsUsed, r.answer, r.storeCalls))
        = Except.ok (MAX_STEPS, fallbackAnswer, [incompleteStore task]) ∧
      (incompleteStore task).memory_type = "experience" ∧
      (incompleteStore task).importance = 3/10 ∧
      (∀ (embed : String → List ℚ) (genId : String → String) (now : String)
         (st : VMState),
         (store_memory embed genId now st (incompleteStore task).content
             "experience" (some (incompleteStore task).metadata) (3/10)).2.length
           = st.length + 1) := by
  intro oracle ctf rel task h
  have hl := agentSteps_nonFinal oracle ctf MAX_STEPS 1
  have hFA : ∀ msgs, (agentSteps oracle ctf MAX_STEPS 1 msgs 0).finalAnswer
      = none :=
    fun msgs => (hl msgs 0 (fun s h1 h2 => h s h1 (by omega))).1
  have hSU : ∀ msgs, (agentSteps oracle ctf MAX_STEPS 1 msgs 0).stepsUsed
      = MAX_STEPS :=
    fun msgs => by
      rw [(hl msgs 0 (fun s h1 h2 => h s h1 (by omega))).2]
      exact Nat.zero_add _
  refine ⟨?_, rfl, rfl, ?_⟩
  · simp [run_agent, Except.map, hFA, hSU]
  · intro embed genId now st
    have h0 : pyStripIsEmpty "Incomplete task: " = false := by decide
    have hblank : pyStripIsEmpty (incompleteStore task).content = false := by
      simp only [incompleteStore]
      exact pyStrip_append_false _ _ (pyStrip_append_false _ _
        (pyStrip_append_false _ _ (pyStrip_append_false _ _ h0)))
    simp [store_memory, hblank]

theorem c1_witness :
    (run_agent (fun _ => ModelOutcome.reply none none) (fun _ _ => "")
        true true [] "t").map (fun r => (r.stepsUsed, r.answer, r.storeCalls))
      = Except.ok (MAX_STEPS, fallbackAnswer, [incompleteStore "t"]) :=
  (c1_step_limit_run (fun _ => ModelOutcome.reply none none) (fun _ _ => "")
    [] "t" (fun _ _ _ => ⟨none, none, rfl, Or.inr (Or.inl rfl)⟩)).1

end Agent
